import Mathlib

set_option maxRecDepth 8192

/-!
Verification of the locale-aware path resolution of mkdocs-static-i18n
(file `mkdocs_static_i18n/struct.py`), shallowly embedded over POSIX path
strings.

Paths are modelled as POSIX path strings in normal form, exactly as the
mkdocs file walker produces them: the separator is the single character
`/`, and the normalisation performed by `pathlib.Path` construction is the
identity on such strings.  The `pathlib` / `os.path` / `urllib.parse`
primitives that `struct.py` calls are embedded character-exactly below on
`List Char`, so that every definition evaluates inside the kernel.
-/

/-- Python `str.split(sep)` for a one-character separator, on char lists.
`splitChar sep l` never returns an empty list. -/
def splitChar (sep : Char) : List Char → List (List Char)
  | [] => [[]]
  | c :: cs =>
    let r := splitChar sep cs
    if c = sep then [] :: r else (c :: r.headD []) :: r.tail

/-- Python `str.startswith`, via the char-list prefix test. -/
def strStartsWith (s pre : String) : Bool := pre.data.isPrefixOf s.data

/-- Python `str.endswith`, via the char-list suffix test. -/
def strEndsWith (s suf : String) : Bool := suf.data.isSuffixOf s.data

/-- `pathlib.PurePath.name`: the final path component (text after the last
separator).  On separator-normal relative paths this is exactly the last
`/`-separated field. -/
def pathName (p : String) : String := String.mk ((splitChar '/' p.data).getLastD [])

/-- `pathlib.PurePath.suffix`: the last dot-suffix of the final component.
CPython computes `i = name.rfind(".")` and returns `name[i:]` when
`0 < i < len(name) - 1`, else the empty string; the case split below on the
dot-separated fields of the name is equivalent. -/
def pathSuffix (p : String) : String :=
  let parts := splitChar '.' (pathName p).data
  match parts with
  | [] => ""
  | [_] => ""
  | _ :: _ :: _ =>
    if parts.getLastD [] = [] then ""
    else if parts.length = 2 ∧ parts.headD [] = [] then ""
    else String.mk ('.' :: parts.getLastD [])

/-- `pathlib.PurePath.suffixes`: CPython returns `[]` when the name ends in
a dot, else splits the name with its leading dots stripped and keeps every
field after the first, each with a dot prepended. -/
def pathSuffixes (p : String) : List String :=
  let n := pathName p
  if strEndsWith n "." then []
  else
    ((splitChar '.' (n.data.dropWhile (fun c => c = '.'))).drop 1).map
      (fun l => String.mk ('.' :: l))

/-- `pathlib.PurePath.with_suffix`: replace the last dot-suffix of the name
(append when the name has none).  CPython computes
`name[:-len(old_suffix)] + suffix`. -/
def withSuffix (p s : String) : String :=
  let n := pathName p
  let old := pathSuffix p
  let newName :=
    if old = "" then n.data ++ s.data
    else n.data.take (n.data.length - old.data.length) ++ s.data
  String.mk (p.data.take (p.data.length - n.data.length) ++ newName)

/-- `os.path.split` (POSIX): head is the text before the final component
with its trailing separators stripped unless it is all separators, tail is
the final component. -/
def osSplit (p : String) : String × String :=
  let tail := pathName p
  let headChars := p.data.take (p.data.length - tail.data.length)
  if headChars ≠ [] ∧ headChars.any (fun c => c ≠ '/') then
    (String.mk ((headChars.reverse.dropWhile (fun c => c = '/')).reverse), tail)
  else (String.mk headChars, tail)

/-- `os.path.join` (POSIX) for two components. -/
def osJoin (a b : String) : String :=
  if strStartsWith b "/" then b
  else if a = "" ∨ strEndsWith a "/" then a ++ b
  else a ++ "/" ++ b

/-- `pathlib.Path.__truediv__` (POSIX) on separator-normal paths: an
absolute right operand wins, an empty or `.` left operand contributes
nothing, otherwise the two are joined with a separator. -/
def pathlibJoin (a b : String) : String :=
  if strStartsWith b "/" then b
  else if a = "" ∨ a = "." then b
  else if strEndsWith a "/" then a ++ b
  else a ++ "/" ++ b

/-- `pathlib.PurePath.relative_to` for the only shape `struct.py` uses: the
base is a proper ancestor directory, so the base plus a separator is a
literal prefix that gets stripped. -/
def relativeTo (p base : String) : String :=
  if (base ++ "/").data.isPrefixOf p.data then
    String.mk (p.data.drop (base ++ "/").data.length)
  else p

/-- `os.path.normpath` (POSIX) for relative paths, the only call-site shape
(`struct.py` applies it to member source paths): drop empty and `.`
components and cancel `..` against a preceding component. -/
def osNormpath (p : String) : String :=
  let comps := (splitChar '/' p.data).map String.mk
  let newComps := comps.foldl
    (fun acc comp =>
      if comp = "" ∨ comp = "." then acc
      else if comp ≠ ".." ∨ acc = [] ∨ acc.getLast? = some ".." then acc ++ [comp]
      else acc.dropLast)
    ([] : List String)
  let r := String.mk (((newComps.map String.data).intersperse ['/']).flatten)
  if r = "" then "." else r

/-- UTF-8 encoding of one character, as byte values. -/
def utf8Bytes (c : Char) : List Nat :=
  let n := c.toNat
  if n < 128 then [n]
  else if n < 2048 then [192 + n / 64, 128 + n % 64]
  else if n < 65536 then [224 + n / 4096, 128 + (n / 64) % 64, 128 + n % 64]
  else [240 + n / 262144, 128 + (n / 4096) % 64, 128 + (n / 64) % 64, 128 + n % 64]

/-- The bytes `urllib.parse.quote` leaves unescaped with its default
`safe="/"`: ASCII letters, digits, `_`, `.`, `-`, `~` and `/`. -/
def safeByte (n : Nat) : Bool :=
  (65 ≤ n ∧ n ≤ 90) ∨ (97 ≤ n ∧ n ≤ 122) ∨ (48 ≤ n ∧ n ≤ 57)
  ∨ n = 95 ∨ n = 46 ∨ n = 45 ∨ n = 126 ∨ n = 47

/-- Upper-case hexadecimal digit, as `urllib.parse.quote` emits. -/
def hexDigitChar (n : Nat) : Char :=
  if n < 10 then Char.ofNat (48 + n) else Char.ofNat (55 + n)

/-- Percent-escaping of one byte. -/
def quoteByte (n : Nat) : List Char :=
  if safeByte n then [Char.ofNat n] else ['%', hexDigitChar (n / 16), hexDigitChar (n % 16)]

/-- `urllib.parse.quote(s)` with the default `safe="/"`: encode to UTF-8
and percent-escape every unsafe byte. -/
def urlquote (s : String) : String :=
  String.mk (((s.data.map utf8Bytes).flatten.map quoteByte).flatten)

/-- `ext` half of `os.path.splitext`: the final component's last dot-suffix,
provided some non-dot character of the component precedes that dot.
(Modelled from the `os.path` collaborator, which mkdocs
`utils.is_markdown_file` calls.) -/
def splitextExt (p : String) : String :=
  let base := pathName p
  let parts := splitChar '.' (base.data.dropWhile (fun c => c = '.'))
  if 2 ≤ parts.length then String.mk ('.' :: parts.getLastD []) else ""

/-- ASCII lower-casing of one character, as Python `str.lower` acts on the
ASCII extensions compared here. -/
def charLower (c : Char) : Char :=
  if 'A' ≤ c ∧ c ≤ 'Z' then Char.ofNat (c.toNat + 32) else c

/-- Modelled from the mkdocs collaborator `utils.is_markdown_file`, which
`File.is_documentation_page` returns: the lower-cased `splitext` extension
is one of the five markdown extensions. -/
def is_markdown_file (path : String) : Bool :=
  [".markdown", ".mdown", ".mkdn", ".mkd", ".md"].contains
    (String.mk ((splitextExt path).data.map charLower))

/-- Python truthiness of an optional string (`None` and `""` are falsy),
as the `if self.locale_suffix:` test in `struct.py` uses it. -/
def optStrTruthy : Option String → Bool
  | none => false
  | some s => s ≠ ""

/-- `RE_LOCALE` core alternatives: `[a-z]{2}` or `[a-z]{2}_[A-Z]{2}`,
anchored to the whole string. -/
def matchesLocaleCore (s : String) : Bool :=
  match s.data with
  | [a, b] => ('a' ≤ a ∧ a ≤ 'z') ∧ ('a' ≤ b ∧ b ≤ 'z')
  | [a, b, u, c, d] =>
    ('a' ≤ a ∧ a ≤ 'z') ∧ ('a' ≤ b ∧ b ≤ 'z') ∧ u = '_'
      ∧ ('A' ≤ c ∧ c ≤ 'Z') ∧ ('A' ≤ d ∧ d ≤ 'Z')
  | _ => false

/-- `RE_LOCALE.match(value)` is truthy: Python `$` also matches just before
one final newline, so a value consisting of a core match plus a trailing
newline is accepted as well. -/
def re_locale_match (s : String) : Bool :=
  matchesLocaleCore s
    ∨ (strEndsWith s "\n" ∧ matchesLocaleCore (String.mk s.data.dropLast))

/-- Shapes of the value `Locale.run_validation` receives after the
(external) `Type.run_validation` of mkdocs: a string, a mapping (of which
only the keys are inspected), or anything else. -/
inductive LocaleValue
  | str (s : String)
  | dict (keys : List String)
  | other
deriving Repr, DecidableEq

/-- The `ValidationError` message `Locale._validate_locale` raises,
naming the offending value. -/
def localeErrorMessage (value : String) : String :=
  "Language code values must be either ISO-639-1 lower case "
    ++ "or represented with they territory/region/county codes, "
    ++ "received \x27" ++ value
    ++ "\x27 expected forms examples: \x27en\x27 or \x27en_US\x27."

/-- `Locale.run_validation`: a string must match `RE_LOCALE`; every key of
a mapping must match `RE_LOCALE` (the loop raises at the first bad key);
any other shape passes through unchanged. -/
def run_validation : LocaleValue → Except String LocaleValue
  | .str s =>
    if re_locale_match s then .ok (.str s) else .error (localeErrorMessage s)
  | .dict keys =>
    match keys.find? (fun k => ! re_locale_match k) with
    | some k => .error (localeErrorMessage k)
    | none => .ok (.dict keys)
  | .other => .ok .other

example : pathName "guide/intro.fr.md" = "intro.fr.md" := by decide
example : pathSuffix "guide/intro.fr.md" = ".md" := by decide
example : pathSuffixes "guide/intro.fr.md" = [".fr", ".md"] := by decide
example : withSuffix "guide/intro.md" ".fr.md" = "guide/intro.fr.md" := by decide
example : withSuffix "guide/intro.fr.md" "" = "guide/intro.fr" := by decide
example : withSuffix "a.b" ".md" = "a.md" := by decide
example : pathSuffix ".gitignore" = "" := by decide
example : pathSuffixes ".gitignore" = [] := by decide
example : osSplit "fr/guide/intro.html" = ("fr/guide", "intro.html") := by decide
example : osSplit "intro.html" = ("", "intro.html") := by decide
example : osJoin "" "index.html" = "index.html" := by decide
example : osJoin "guide" "intro" = "guide/intro" := by decide
example : pathlibJoin "docs" "guide/intro.fr.md" = "docs/guide/intro.fr.md" := by decide
example : relativeTo "docs/guide/intro.fr.md" "docs" = "guide/intro.fr.md" := by decide
example : osNormpath "guide/intro.md" = "guide/intro.md" := by decide
example : osNormpath "a/./b/../c" = "a/c" := by decide
example : urlquote "fr/guide d/" = "fr/guide%20d/" := by decide
example : splitextExt "a/b.tar.gz" = ".gz" := by decide
example : is_markdown_file "guide/intro.fr.md" = true := by decide
example : is_markdown_file "img/logo.png" = false := by decide
example : re_locale_match "en" = true := by decide
example : re_locale_match "en_US" = true := by decide
example : re_locale_match "eng" = false := by decide
example : re_locale_match "EN" = false := by decide

/-- The fields of the walker-supplied `mkdocs.structure.files.File` that
`I18nFile.__init__` reads from `file_from`. -/
structure SourceFile where
  src_path : String
  abs_src_path : String
  dest_path : String
  abs_dest_path : String
deriving Repr, DecidableEq

/-- The fields of the constructed `I18nFile` that the covered behaviour
touches.  `dest_name` is an `Option` because the fallback branch of
`I18nFile.__init__` never assigns it. -/
structure I18nFile where
  dest_language : String
  initial_src_path : String
  initial_abs_src_path : String
  initial_dest_path : String
  initial_abs_dest_path : String
  locale_suffix : Option String
  name : String
  src_path : String
  abs_src_path : String
  dest_name : Option String
  dest_path : String
  abs_dest_path : String
  url : String
deriving Repr, DecidableEq

/-- `I18nFile._is_localized_for`: the first configured language such that
the set of the two expected suffixes (`.<language>` and the file's
extension) is contained in the file's suffix chain. -/
def is_localized_for (all_languages : List String) (initial_src_path : String) :
    Option String :=
  all_languages.find? (fun language =>
    ["." ++ language, pathSuffix initial_src_path].all
      (fun e => (pathSuffixes initial_src_path).contains e))

/-- `I18nFile.non_i18n_src_path`: the initial source path with its
extension stripped, and additionally its locale suffix stripped when one
was detected. -/
def non_i18n_src_path (all_languages : List String) (initial_src_path : String) :
    String :=
  match is_localized_for all_languages initial_src_path with
  | none => withSuffix initial_src_path ""
  | some _ => withSuffix (withSuffix initial_src_path "") ""

/-- `I18nFile._get_stem`: the name of the stripped stem, with `index` and
`README` both normalised to `index`. -/
def get_stem (all_languages : List String) (initial_src_path : String) : String :=
  let n := pathName (non_i18n_src_path all_languages initial_src_path)
  if n = "index" ∨ n = "README" then "index" else n

/-- `I18nFile._get_dest_path`: pages become `parent/<name>.html` when
directory URLs are off or the name is `index`, else
`parent/<name>/index.html`; other files become `parent/<dest_name>`. -/
def get_dest_path (src_path nm dest_name : String) (use_directory_urls : Bool) :
    String :=
  let parent := (osSplit src_path).1
  if is_markdown_file src_path then
    if use_directory_urls = false ∨ nm = "index" then
      osJoin parent (nm ++ ".html")
    else
      osJoin (osJoin parent nm) "index.html"
  else
    osJoin parent dest_name

/-- `I18nFile._get_url`: the destination path (separators are already `/`
in the POSIX model), collapsed to `dirname + "/"` (or `"."` at the root)
for an `index.html` under directory URLs, prefixed with the destination
language when that is truthy, and percent-quoted. -/
def get_url (dest_path dest_language : String) (use_directory_urls : Bool) :
    String :=
  let url := dest_path
  let parts := osSplit url
  let url :=
    if use_directory_urls ∧ parts.2 = "index.html" then
      if parts.1 = "" then "." else parts.1 ++ "/"
    else url
  let url :=
    if dest_language = "" then url
    else if url = "." then dest_language ++ "/"
    else dest_language ++ "/" ++ url
  urlquote url

/-- The `expected_paths` list of `I18nFile.__init__`: the three candidate
absolute source paths with the locale each records, in source order —
requested language, default language, no suffix. -/
def expectedPaths (file_from : SourceFile) (language : String)
    (all_languages : List String) (default_language docs_dir : String) :
    List (Option String × String) :=
  [ (some language,
      pathlibJoin docs_dir
        (non_i18n_src_path all_languages file_from.src_path
          ++ "." ++ language ++ pathSuffix file_from.src_path)),
    (some default_language,
      pathlibJoin docs_dir
        (non_i18n_src_path all_languages file_from.src_path
          ++ "." ++ default_language ++ pathSuffix file_from.src_path)),
    (none,
      pathlibJoin docs_dir
        (non_i18n_src_path all_languages file_from.src_path
          ++ pathSuffix file_from.src_path)) ]

/-- `I18nFile.__init__`: resolve the first existing candidate of
`expectedPaths` (recording its locale, source path, destination name and
destination path), or fall back to the walker-supplied fields unchanged;
in both cases the URL is recomputed from the resulting destination path. -/
def mkI18nFile (file_from : SourceFile) (language : String)
    (all_languages : List String) (default_language docs_dir site_dir : String)
    (use_directory_urls : Bool) (fsExists : String → Bool) : I18nFile :=
  let nm := get_stem all_languages file_from.src_path
  match (expectedPaths file_from language all_languages default_language
      docs_dir).find? (fun c => fsExists c.2) with
  | some (ls, expected_path) =>
    let src_path := relativeTo expected_path docs_dir
    let dest_name :=
      if optStrTruthy ls then
        withSuffix nm (pathSuffix file_from.src_path)
      else
        withSuffix nm (String.join (pathSuffixes file_from.src_path))
    let dest_path := get_dest_path src_path nm dest_name use_directory_urls
    { dest_language := language
      initial_src_path := file_from.src_path
      initial_abs_src_path := file_from.abs_src_path
      initial_dest_path := file_from.dest_path
      initial_abs_dest_path := file_from.abs_dest_path
      locale_suffix := ls
      name := nm
      src_path := src_path
      abs_src_path := pathlibJoin docs_dir src_path
      dest_name := some dest_name
      dest_path := dest_path
      abs_dest_path := pathlibJoin (pathlibJoin site_dir language) dest_path
      url := get_url dest_path language use_directory_urls }
  | none =>
    { dest_language := language
      initial_src_path := file_from.src_path
      initial_abs_src_path := file_from.abs_src_path
      initial_dest_path := file_from.dest_path
      initial_abs_dest_path := file_from.abs_dest_path
      locale_suffix := none
      name := nm
      src_path := file_from.src_path
      abs_src_path := file_from.abs_src_path
      dest_name := none
      dest_path := file_from.dest_path
      abs_dest_path := file_from.abs_dest_path
      url := get_url file_from.dest_path language use_directory_urls }

/-- The member fields the `I18nFiles` collection inspects: `append`
compares destination paths and the lookups compare source paths. -/
structure FileEntry where
  src_path : String
  dest_path : String
deriving Repr, DecidableEq

/-- `I18nFiles`: the member list of the mkdocs `Files` base plus the
`locale` and `default_locale` context the plugin sets on the instance. -/
structure I18nFiles where
  locale : String
  default_locale : String
  files : List FileEntry
deriving Repr, DecidableEq

/-- `I18nFiles.append`: scan the existing members and do nothing when one
already has the same destination path, else append. -/
def I18nFiles.append (fs : I18nFiles) (f : FileEntry) : I18nFiles :=
  if fs.files.any (fun g => g.dest_path == f.dest_path) then fs
  else { fs with files := fs.files ++ [f] }

/-- A sequence of `I18nFiles.append` calls, in order. -/
def appendAll (fs : I18nFiles) (l : List FileEntry) : I18nFiles :=
  l.foldl I18nFiles.append fs

/-- Key iteration order of a Python dict built from a list of keys:
first occurrences, in insertion order. -/
def dictKeys : List String → List String
  | [] => []
  | x :: xs => x :: (dictKeys xs).filter (fun y => y ≠ x)

/-- The keys of the mkdocs `Files.src_paths` mapping
(modelled from the `Files` collaborator: one entry per member source
path, in insertion order). -/
def srcPathKeys (files : List FileEntry) : List String :=
  dictKeys (files.map (fun f => f.src_path))

/-- `Files.src_paths` lookup: the mapping holds, for each key, the last
member with that source path. -/
def srcPathsGet (files : List FileEntry) (key : String) : Option FileEntry :=
  (files.filter (fun f => f.src_path == key)).getLast?

/-- The `expected_src_paths` list of `I18nFiles.__contains__` and
`I18nFiles.get_file_from_path`: the queried path with the requested-locale
suffix inserted before its extension, with the default-locale suffix
inserted, and unmodified, in that order. -/
def expected_src_paths (locale default_locale path : String) : List String :=
  [ withSuffix path ("." ++ locale ++ pathSuffix path),
    withSuffix path ("." ++ default_locale ++ pathSuffix path),
    path ]

/-- `I18nFiles.__contains__`: `any(filter(...))` over the source-path keys
— some key equals one of the three expected forms (and, per Python
truthiness of `any`, is a nonempty string). -/
def I18nFiles.containsPath (fs : I18nFiles) (path : String) : Bool :=
  ((srcPathKeys fs.files).filter
      (fun s => (expected_src_paths fs.locale fs.default_locale path).contains s)).any
    (fun s => s ≠ "")

/-- `I18nFiles.get_file_from_path`: return, for the first source-path key
that equals one of the three expected forms, the member stored under the
normalised key; `None` when no key matches. -/
def I18nFiles.get_file_from_path (fs : I18nFiles) (path : String) :
    Option FileEntry :=
  match (srcPathKeys fs.files).find?
      (fun s => (expected_src_paths fs.locale fs.default_locale path).contains s) with
  | some s => srcPathsGet fs.files (osNormpath s)
  | none => none

example :
    (mkI18nFile ⟨"guide/intro.md", "/d/guide/intro.md", "guide/intro/index.html",
        "/s/guide/intro/index.html"⟩ "fr" ["fr", "en"] "en" "docs" "site" true
      (fun p => p == "docs/guide/intro.fr.md" || p == "docs/guide/intro.md")).src_path
      = "guide/intro.fr.md" := by decide

example :
    (mkI18nFile ⟨"guide/intro.md", "/d/guide/intro.md", "guide/intro/index.html",
        "/s/guide/intro/index.html"⟩ "fr" ["fr", "en"] "en" "docs" "site" true
      (fun p => p == "docs/guide/intro.fr.md" || p == "docs/guide/intro.md")).url
      = "fr/guide/intro/" := by decide

example :
    (mkI18nFile ⟨"guide/intro.md", "/d/guide/intro.md", "guide/intro/index.html",
        "/s/guide/intro/index.html"⟩ "fr" ["fr", "en"] "en" "docs" "site" true
      (fun p => p == "docs/guide/intro.en.md")).src_path = "guide/intro.en.md" := by decide

example :
    (mkI18nFile ⟨"index.md", "/d/index.md", "index.html", "/s/index.html"⟩
      "fr" ["fr", "en"] "en" "docs" "site" true
      (fun p => p == "docs/index.md")).url = "fr/" := by decide

example :
    (mkI18nFile ⟨"index.md", "/d/index.md", "index.html", "/s/index.html"⟩
      "fr" ["fr", "en"] "en" "docs" "site" true
      (fun p => p == "docs/index.md")).dest_path = "index.html" := by decide

theorem strData_append (a b : String) : (a ++ b).data = a.data ++ b.data := rfl

theorem strMk_data (s : String) : String.mk s.data = s := rfl

theorem slash_data : ("/" : String).data = ['/'] := rfl

theorem isPrefixOf_append_self (l t : List Char) : l.isPrefixOf (l ++ t) = true := by
  induction l with
  | nil => simp [List.isPrefixOf]
  | cons x xs ih => simp [List.isPrefixOf, ih]

theorem strStartsWith_slash_append (a b : String)
    (ha : strStartsWith a "/" = false) (hb : strStartsWith b "/" = false) :
    strStartsWith (a ++ b) "/" = false := by
  unfold strStartsWith at *
  rw [slash_data] at *
  rw [strData_append]
  cases h : a.data with
  | nil => simpa [h] using hb
  | cons x xs =>
    rw [h] at ha
    simp only [List.cons_append]
    simp [List.isPrefixOf] at ha ⊢
    exact ha

theorem strStartsWith_slash_append_left (a b : String) (hne : a.data ≠ [])
    (ha : strStartsWith a "/" = false) : strStartsWith (a ++ b) "/" = false := by
  unfold strStartsWith at *
  rw [slash_data] at *
  rw [strData_append]
  cases h : a.data with
  | nil => exact absurd h hne
  | cons x xs =>
    rw [h] at ha
    simp only [List.cons_append]
    simp [List.isPrefixOf] at ha ⊢
    exact ha

theorem pathSuffix_shape (p : String) :
    pathSuffix p = "" ∨ ∃ l, (pathSuffix p).data = '.' :: l := by
  unfold pathSuffix
  dsimp only
  generalize splitChar '.' (pathName p).data = parts
  rcases parts with _ | ⟨a, _ | ⟨b, rest⟩⟩
  · exact Or.inl rfl
  · exact Or.inl rfl
  · dsimp only
    split
    · exact Or.inl rfl
    · split
      · exact Or.inl rfl
      · exact Or.inr ⟨_, rfl⟩

theorem pathSuffix_no_slash (p : String) : strStartsWith (pathSuffix p) "/" = false := by
  rcases pathSuffix_shape p with h | ⟨l, h⟩
  · rw [h]
    decide
  · unfold strStartsWith
    rw [slash_data, h]
    simp [List.isPrefixOf]

theorem relativeTo_pathlibJoin (d p : String) (h1 : d ≠ "") (h2 : d ≠ ".")
    (h3 : strEndsWith d "/" = false) (hp : strStartsWith p "/" = false) :
    relativeTo (pathlibJoin d p) d = p := by
  have hc : ¬(d = "" ∨ d = ".") := by simp [h1, h2]
  unfold pathlibJoin
  rw [if_neg (by simp [hp]), if_neg hc, if_neg (by simp [h3])]
  unfold relativeTo
  have hd : (d ++ "/" ++ p).data = (d ++ "/").data ++ p.data := strData_append _ _
  rw [if_pos]
  · rw [hd, List.drop_left, strMk_data]
  · rw [hd, isPrefixOf_append_self]

/-- C8: locale validation succeeds on a string exactly when it matches the
`RE_LOCALE` pattern (`^[a-z]\x7b2\x7d$` or `^[a-z]\x7b2\x7d_[A-Z]\x7b2\x7d$`, with
Python `$` also admitting one trailing newline), and otherwise raises the
configuration error naming the offending value; a mapping is checked on
every key (values uninspected, the loop reporting the first bad key); any
other shape is returned unchanged. -/
theorem locale_validation_correct (s : String) (keys : List String) :
    (run_validation (.str s) = .ok (.str s) ↔ re_locale_match s = true)
    ∧ (re_locale_match s = false →
        run_validation (.str s) = .error (localeErrorMessage s))
    ∧ (run_validation (.dict keys) = .ok (.dict keys) ↔
        ∀ k ∈ keys, re_locale_match k = true)
    ∧ ((∃ k ∈ keys, re_locale_match k = false) →
        ∃ k ∈ keys, re_locale_match k = false
          ∧ run_validation (.dict keys) = .error (localeErrorMessage k))
    ∧ run_validation LocaleValue.other = .ok LocaleValue.other := by
  refine ⟨?_, ?_, ?_, ?_, rfl⟩
  · cases h : re_locale_match s <;> simp [run_validation, h]
  · intro h
    simp [run_validation, h]
  · cases hf : keys.find? (fun k => ! re_locale_match k) with
    | none =>
      have hall : ∀ k ∈ keys, re_locale_match k = true := by
        rw [List.find?_eq_none] at hf
        intro k hk
        simpa using hf k hk
      simp only [run_validation, hf, true_iff]
      exact hall
    | some k =>
      have hk := List.find?_some hf
      have hmem := List.mem_of_find?_eq_some hf
      simp only [Bool.not_eq_true'] at hk
      simp only [run_validation, hf]
      constructor
      · intro h
        exact absurd h (by simp)
      · intro h
        exact absurd (h k hmem) (by simp [hk])
  · intro ⟨k, hk, hbad⟩
    cases hf : keys.find? (fun k => ! re_locale_match k) with
    | none =>
      rw [List.find?_eq_none] at hf
      exact absurd (by simp [hbad] : (! re_locale_match k) = true) (hf k hk)
    | some k2 =>
      have hk2 := List.find?_some hf
      have hmem2 := List.mem_of_find?_eq_some hf
      simp only [Bool.not_eq_true'] at hk2
      exact ⟨k2, hmem2, hk2, by simp [run_validation, hf]⟩

theorem locale_validation_correct_witness :
    run_validation (.str "zz!") = .error (localeErrorMessage "zz!")
    ∧ (run_validation (.dict ["fr", "en"]) = .ok (.dict ["fr", "en"]) ↔
        ∀ k ∈ ["fr", "en"], re_locale_match k = true) :=
  ⟨(locale_validation_correct "zz!" []).2.1 (by decide),
   (locale_validation_correct "zz!" ["fr", "en"]).2.2.1⟩

/-- C5: a locale suffix is detected on the initial source path exactly when,
for some locale of the full configured list, both `.<locale>` and the final
extension occur in the path's dot-suffix chain; when one is detected the
logical stem strips two trailing suffixes, else only the extension. -/
theorem locale_suffix_detection (all_languages : List String) (p : String) :
    ((is_localized_for all_languages p).isSome ↔
      ∃ lang ∈ all_languages,
        ("." ++ lang) ∈ pathSuffixes p ∧ pathSuffix p ∈ pathSuffixes p)
    ∧ non_i18n_src_path all_languages p =
        (if (is_localized_for all_languages p).isSome
         then withSuffix (withSuffix p "") ""
         else withSuffix p "") := by
  constructor
  · unfold is_localized_for
    rw [List.find?_isSome]
    constructor
    · rintro ⟨lang, hmem, hp⟩
      refine ⟨lang, hmem, ?_⟩
      simp only [List.all_cons, List.all_nil, Bool.and_true, Bool.and_eq_true] at hp
      constructor
      · have := hp.1
        simpa [List.contains, List.elem_iff] using this
      · have := hp.2
        simpa [List.contains, List.elem_iff] using this
    · rintro ⟨lang, hmem, h1, h2⟩
      refine ⟨lang, hmem, ?_⟩
      simp only [List.all_cons, List.all_nil, Bool.and_true, Bool.and_eq_true]
      exact ⟨by simpa [List.contains, List.elem_iff] using h1,
        by simpa [List.contains, List.elem_iff] using h2⟩
  · unfold non_i18n_src_path
    cases h : is_localized_for all_languages p <;> simp [h]

theorem locale_suffix_detection_witness :
    ((is_localized_for ["fr", "en"] "guide/intro.fr.md").isSome ↔
      ∃ lang ∈ ["fr", "en"],
        ("." ++ lang) ∈ pathSuffixes "guide/intro.fr.md"
          ∧ pathSuffix "guide/intro.fr.md" ∈ pathSuffixes "guide/intro.fr.md")
    ∧ non_i18n_src_path ["fr", "en"] "guide/intro.fr.md" =
        (if (is_localized_for ["fr", "en"] "guide/intro.fr.md").isSome
         then withSuffix (withSuffix "guide/intro.fr.md" "") ""
         else withSuffix "guide/intro.fr.md" "") :=
  locale_suffix_detection ["fr", "en"] "guide/intro.fr.md"

/-- C9: the name a resolved file uses for destination naming is `index`
when the final component of the logical stem is `index` or `README`, and
that final component itself otherwise. -/
theorem name_index_normalization (file_from : SourceFile) (language : String)
    (all_languages : List String) (default_language docs_dir site_dir : String)
    (use_directory_urls : Bool) (fsExists : String → Bool) :
    (mkI18nFile file_from language all_languages default_language docs_dir
        site_dir use_directory_urls fsExists).name =
      (if pathName (non_i18n_src_path all_languages file_from.src_path) = "index"
          ∨ pathName (non_i18n_src_path all_languages file_from.src_path) = "README"
       then "index"
       else pathName (non_i18n_src_path all_languages file_from.src_path)) := by
  unfold mkI18nFile
  split <;> simp [get_stem]

/-- C1: resolution tries the three candidate source paths — requested-locale
suffixed, default-locale suffixed, unsuffixed — in this fixed order against
the filesystem-existence predicate; the first existing candidate becomes
the source path and its locale (requested, default, or none) is recorded
in `locale_suffix`.  The hypotheses say the docs dir is a nonempty
non-trivial directory without a trailing separator and the stem is
relative, as the mkdocs configuration guarantees. -/
theorem resolution_priority_order (file_from : SourceFile) (language : String)
    (all_languages : List String) (default_language docs_dir site_dir : String)
    (use_directory_urls : Bool) (fsExists : String → Bool)
    (hd1 : docs_dir ≠ "") (hd2 : docs_dir ≠ ".")
    (hd3 : strEndsWith docs_dir "/" = false)
    (hrel : strStartsWith (non_i18n_src_path all_languages file_from.src_path) "/"
        = false) :
    (fsExists (pathlibJoin docs_dir
          (non_i18n_src_path all_languages file_from.src_path
            ++ "." ++ language ++ pathSuffix file_from.src_path)) = true →
        (mkI18nFile file_from language all_languages default_language docs_dir
            site_dir use_directory_urls fsExists).src_path
          = non_i18n_src_path all_languages file_from.src_path
              ++ "." ++ language ++ pathSuffix file_from.src_path
        ∧ (mkI18nFile file_from language all_languages default_language docs_dir
            site_dir use_directory_urls fsExists).locale_suffix = some language)
    ∧ (fsExists (pathlibJoin docs_dir
          (non_i18n_src_path all_languages file_from.src_path
            ++ "." ++ language ++ pathSuffix file_from.src_path)) = false →
        fsExists (pathlibJoin docs_dir
          (non_i18n_src_path all_languages file_from.src_path
            ++ "." ++ default_language ++ pathSuffix file_from.src_path)) = true →
        (mkI18nFile file_from language all_languages default_language docs_dir
            site_dir use_directory_urls fsExists).src_path
          = non_i18n_src_path all_languages file_from.src_path
              ++ "." ++ default_language ++ pathSuffix file_from.src_path
        ∧ (mkI18nFile file_from language all_languages default_language docs_dir
            site_dir use_directory_urls fsExists).locale_suffix
          = some default_language)
    ∧ (fsExists (pathlibJoin docs_dir
          (non_i18n_src_path all_languages file_from.src_path
            ++ "." ++ language ++ pathSuffix file_from.src_path)) = false →
        fsExists (pathlibJoin docs_dir
          (non_i18n_src_path all_languages file_from.src_path
            ++ "." ++ default_language ++ pathSuffix file_from.src_path)) = false →
        fsExists (pathlibJoin docs_dir
          (non_i18n_src_path all_languages file_from.src_path
            ++ pathSuffix file_from.src_path)) = true →
        (mkI18nFile file_from language all_languages default_language docs_dir
            site_dir use_directory_urls fsExists).src_path
          = non_i18n_src_path all_languages file_from.src_path
              ++ pathSuffix file_from.src_path
        ∧ (mkI18nFile file_from language all_languages default_language docs_dir
            site_dir use_directory_urls fsExists).locale_suffix = none) := by
  have hsfx := pathSuffix_no_slash file_from.src_path
  have h01 : strStartsWith
      (non_i18n_src_path all_languages file_from.src_path ++ ".") "/" = false :=
    strStartsWith_slash_append _ _ hrel (by decide)
  have hne1 :
      ((non_i18n_src_path all_languages file_from.src_path ++ ".") : String).data
        ≠ [] := by
    rw [strData_append]
    simp
  have h02l : strStartsWith
      ((non_i18n_src_path all_languages file_from.src_path ++ ".") ++ language)
      "/" = false :=
    strStartsWith_slash_append_left _ _ hne1 h01
  have hne2l :
      (((non_i18n_src_path all_languages file_from.src_path ++ ".") ++ language) :
        String).data ≠ [] := by
    rw [strData_append, strData_append]
    simp
  have hc1 : strStartsWith
      (((non_i18n_src_path all_languages file_from.src_path ++ ".") ++ language)
        ++ pathSuffix file_from.src_path) "/" = false :=
    strStartsWith_slash_append_left _ _ hne2l h02l
  have h02d : strStartsWith
      ((non_i18n_src_path all_languages file_from.src_path ++ ".")
        ++ default_language) "/" = false :=
    strStartsWith_slash_append_left _ _ hne1 h01
  have hne2d :
      (((non_i18n_src_path all_languages file_from.src_path ++ ".")
        ++ default_language) : String).data ≠ [] := by
    rw [strData_append, strData_append]
    simp
  have hc2 : strStartsWith
      (((non_i18n_src_path all_languages file_from.src_path ++ ".")
        ++ default_language) ++ pathSuffix file_from.src_path) "/" = false :=
    strStartsWith_slash_append_left _ _ hne2d h02d
  have hc3 : strStartsWith
      (non_i18n_src_path all_languages file_from.src_path
        ++ pathSuffix file_from.src_path) "/" = false :=
    strStartsWith_slash_append _ _ hrel hsfx
  refine ⟨?_, ?_, ?_⟩
  · intro h1
    have hfind : (expectedPaths file_from language all_languages default_language
        docs_dir).find? (fun c => fsExists c.2)
        = some (some language, pathlibJoin docs_dir
            (non_i18n_src_path all_languages file_from.src_path
              ++ "." ++ language ++ pathSuffix file_from.src_path)) := by
      simp [expectedPaths, List.find?, h1]
    unfold mkI18nFile
    rw [hfind]
    exact ⟨relativeTo_pathlibJoin _ _ hd1 hd2 hd3 hc1, rfl⟩
  · intro h1 h2
    have hfind : (expectedPaths file_from language all_languages default_language
        docs_dir).find? (fun c => fsExists c.2)
        = some (some default_language, pathlibJoin docs_dir
            (non_i18n_src_path all_languages file_from.src_path
              ++ "." ++ default_language ++ pathSuffix file_from.src_path)) := by
      simp [expectedPaths, List.find?, h1, h2]
    unfold mkI18nFile
    rw [hfind]
    exact ⟨relativeTo_pathlibJoin _ _ hd1 hd2 hd3 hc2, rfl⟩
  · intro h1 h2 h3
    have hfind : (expectedPaths file_from language all_languages default_language
        docs_dir).find? (fun c => fsExists c.2)
        = some (none, pathlibJoin docs_dir
            (non_i18n_src_path all_languages file_from.src_path
              ++ pathSuffix file_from.src_path)) := by
      simp [expectedPaths, List.find?, h1, h2, h3]
    unfold mkI18nFile
    rw [hfind]
    exact ⟨relativeTo_pathlibJoin _ _ hd1 hd2 hd3 hc3, rfl⟩

/-- C2: when none of the three candidate paths exists, resolution raises
nothing (construction is a total function) and degrades to the
walker-supplied source and destination paths unchanged. -/
theorem fallback_uses_walker_paths (file_from : SourceFile) (language : String)
    (all_languages : List String) (default_language docs_dir site_dir : String)
    (use_directory_urls : Bool) (fsExists : String → Bool)
    (hnone : ∀ c ∈ expectedPaths file_from language all_languages default_language
        docs_dir, fsExists c.2 = false) :
    (mkI18nFile file_from language all_languages default_language docs_dir
        site_dir use_directory_urls fsExists).src_path = file_from.src_path
    ∧ (mkI18nFile file_from language all_languages default_language docs_dir
        site_dir use_directory_urls fsExists).dest_path = file_from.dest_path := by
  have hfind : (expectedPaths file_from language all_languages default_language
      docs_dir).find? (fun c => fsExists c.2) = none := by
    rw [List.find?_eq_none]
    intro x hx
    simp [hnone x hx]
  unfold mkI18nFile
  rw [hfind]
  exact ⟨rfl, rfl⟩

/-- C10: in the fallback case the constructed file keeps the walker's
`src_path`, `abs_src_path`, `dest_path` and `abs_dest_path` exactly (no
locale directory inserted), the matched locale suffix stays `none`, the
destination filename is never assigned, and the URL is still freshly
computed from the unchanged destination path, prefixed with the requested
locale. -/
theorem fallback_frame_effect (file_from : SourceFile) (language : String)
    (all_languages : List String) (default_language docs_dir site_dir : String)
    (use_directory_urls : Bool) (fsExists : String → Bool)
    (hnone : ∀ c ∈ expectedPaths file_from language all_languages default_language
        docs_dir, fsExists c.2 = false) :
    (mkI18nFile file_from language all_languages default_language docs_dir
        site_dir use_directory_urls fsExists).src_path = file_from.src_path
    ∧ (mkI18nFile file_from language all_languages default_language docs_dir
        site_dir use_directory_urls fsExists).abs_src_path = file_from.abs_src_path
    ∧ (mkI18nFile file_from language all_languages default_language docs_dir
        site_dir use_directory_urls fsExists).dest_path = file_from.dest_path
    ∧ (mkI18nFile file_from language all_languages default_language docs_dir
        site_dir use_directory_urls fsExists).abs_dest_path
      = file_from.abs_dest_path
    ∧ (mkI18nFile file_from language all_languages default_language docs_dir
        site_dir use_directory_urls fsExists).locale_suffix = none
    ∧ (mkI18nFile file_from language all_languages default_language docs_dir
        site_dir use_directory_urls fsExists).dest_name = none
    ∧ (mkI18nFile file_from language all_languages default_language docs_dir
        site_dir use_directory_urls fsExists).url
      = get_url file_from.dest_path language use_directory_urls
    ∧ (language ≠ "" → ∃ rest,
        (mkI18nFile file_from language all_languages default_language docs_dir
          site_dir use_directory_urls fsExists).url
          = urlquote (language ++ "/" ++ rest)) := by
  have hfind : (expectedPaths file_from language all_languages default_language
      docs_dir).find? (fun c => fsExists c.2) = none := by
    rw [List.find?_eq_none]
    intro x hx
    simp [hnone x hx]
  unfold mkI18nFile
  rw [hfind]
  dsimp only
  refine ⟨rfl, rfl, rfl, rfl, rfl, rfl, rfl, ?_⟩
  intro hlang
  unfold get_url
  dsimp only
  rw [if_neg hlang]
  by_cases hx : (if use_directory_urls
        ∧ (osSplit file_from.dest_path).2 = "index.html" then
      if (osSplit file_from.dest_path).1 = "" then "."
      else (osSplit file_from.dest_path).1 ++ "/"
    else file_from.dest_path) = "."
  · rw [if_pos hx]
    exact ⟨"", by rw [String.append_empty]⟩
  · rw [if_neg hx]
    exact ⟨_, rfl⟩

theorem resolution_priority_order_witness :
    (mkI18nFile ⟨"guide/intro.md", "absS", "guide/intro/index.html", "absD"⟩ "fr"
        ["fr", "en"] "en" "docs" "site" true
        (fun p => p == "docs/guide/intro.en.md")).src_path
      = non_i18n_src_path ["fr", "en"] "guide/intro.md"
          ++ "." ++ "en" ++ pathSuffix "guide/intro.md"
    ∧ (mkI18nFile ⟨"guide/intro.md", "absS", "guide/intro/index.html", "absD"⟩ "fr"
        ["fr", "en"] "en" "docs" "site" true
        (fun p => p == "docs/guide/intro.en.md")).locale_suffix = some "en" :=
  (resolution_priority_order ⟨"guide/intro.md", "absS", "guide/intro/index.html",
      "absD"⟩ "fr" ["fr", "en"] "en" "docs" "site" true
      (fun p => p == "docs/guide/intro.en.md")
      (by decide) (by decide) (by decide) (by decide)).2.1 (by decide) (by decide)

theorem fallback_uses_walker_paths_witness :
    (mkI18nFile ⟨"img/logo.png", "absS", "img/logo.png", "absD"⟩ "fr" ["fr", "en"]
        "en" "docs" "site" true (fun _ => false)).src_path = "img/logo.png"
    ∧ (mkI18nFile ⟨"img/logo.png", "absS", "img/logo.png", "absD"⟩ "fr" ["fr", "en"]
        "en" "docs" "site" true (fun _ => false)).dest_path = "img/logo.png" :=
  fallback_uses_walker_paths ⟨"img/logo.png", "absS", "img/logo.png", "absD"⟩ "fr"
    ["fr", "en"] "en" "docs" "site" true (fun _ => false) (by decide)

theorem fallback_frame_effect_witness :
    (mkI18nFile ⟨"img/logo.png", "absS", "img/logo.png", "absD"⟩ "fr" ["fr", "en"]
        "en" "docs" "site" true (fun _ => false)).src_path = "img/logo.png"
    ∧ (mkI18nFile ⟨"img/logo.png", "absS", "img/logo.png", "absD"⟩ "fr" ["fr", "en"]
        "en" "docs" "site" true (fun _ => false)).abs_src_path = "absS"
    ∧ (mkI18nFile ⟨"img/logo.png", "absS", "img/logo.png", "absD"⟩ "fr" ["fr", "en"]
        "en" "docs" "site" true (fun _ => false)).dest_path = "img/logo.png"
    ∧ (mkI18nFile ⟨"img/logo.png", "absS", "img/logo.png", "absD"⟩ "fr" ["fr", "en"]
        "en" "docs" "site" true (fun _ => false)).abs_dest_path = "absD"
    ∧ (mkI18nFile ⟨"img/logo.png", "absS", "img/logo.png", "absD"⟩ "fr" ["fr", "en"]
        "en" "docs" "site" true (fun _ => false)).locale_suffix = none
    ∧ (mkI18nFile ⟨"img/logo.png", "absS", "img/logo.png", "absD"⟩ "fr" ["fr", "en"]
        "en" "docs" "site" true (fun _ => false)).dest_name = none
    ∧ (mkI18nFile ⟨"img/logo.png", "absS", "img/logo.png", "absD"⟩ "fr" ["fr", "en"]
        "en" "docs" "site" true (fun _ => false)).url
      = get_url "img/logo.png" "fr" true
    ∧ (("fr" : String) ≠ "" → ∃ rest,
        (mkI18nFile ⟨"img/logo.png", "absS", "img/logo.png", "absD"⟩ "fr"
          ["fr", "en"] "en" "docs" "site" true (fun _ => false)).url
          = urlquote ("fr" ++ "/" ++ rest)) :=
  fallback_frame_effect ⟨"img/logo.png", "absS", "img/logo.png", "absD"⟩ "fr"
    ["fr", "en"] "en" "docs" "site" true (fun _ => false) (by decide)

theorem appendAll_sublist (fs : I18nFiles) (l : List FileEntry) :
    (appendAll fs l).files.Sublist (fs.files ++ l) := by
  induction l generalizing fs with
  | nil => simp [appendAll]
  | cons x xs ih =>
    have step : appendAll fs (x :: xs) = appendAll (fs.append x) xs := by
      simp [appendAll]
    rw [step]
    refine (ih (fs.append x)).trans ?_
    unfold I18nFiles.append
    by_cases hx : fs.files.any (fun g => g.dest_path == x.dest_path)
    · rw [if_pos hx]
      exact List.Sublist.append_left (List.sublist_cons_self x xs) fs.files
    · rw [if_neg hx]
      simp only [List.append_assoc, List.singleton_append]
      exact List.Sublist.refl _

theorem appendAll_pairwise (fs : I18nFiles) (l : List FileEntry)
    (h : fs.files.Pairwise (fun a b => a.dest_path ≠ b.dest_path)) :
    (appendAll fs l).files.Pairwise (fun a b => a.dest_path ≠ b.dest_path) := by
  induction l generalizing fs with
  | nil => exact h
  | cons x xs ih =>
    have step : appendAll fs (x :: xs) = appendAll (fs.append x) xs := by
      simp [appendAll]
    rw [step]
    apply ih
    unfold I18nFiles.append
    by_cases hx : fs.files.any (fun g => g.dest_path == x.dest_path)
    · rw [if_pos hx]
      exact h
    · rw [if_neg hx]
      rw [List.pairwise_append]
      refine ⟨h, List.pairwise_singleton _ _, ?_⟩
      intro a ha b hb
      simp only [List.mem_singleton] at hb
      subst hb
      intro heq
      apply hx
      rw [List.any_eq_true]
      exact ⟨a, ha, by simp [heq]⟩

/-- C3: appending a file whose destination path an existing member already
has leaves the collection entirely unchanged (first insertion wins); the
members retained after any sequence of appends form a subsequence of the
insertion sequence (insertion order preserved); and no two retained
members share a destination path. -/
theorem append_dedup_invariant (lc dl : String) (l : List FileEntry)
    (fs : I18nFiles) (f : FileEntry)
    (hdup : ∃ g ∈ fs.files, g.dest_path = f.dest_path) :
    fs.append f = fs
    ∧ (appendAll ⟨lc, dl, []⟩ l).files.Sublist l
    ∧ (appendAll ⟨lc, dl, []⟩ l).files.Pairwise
        (fun a b => a.dest_path ≠ b.dest_path) := by
  refine ⟨?_, ?_, ?_⟩
  · unfold I18nFiles.append
    rw [if_pos]
    rw [List.any_eq_true]
    obtain ⟨g, hg, he⟩ := hdup
    exact ⟨g, hg, by simp [he]⟩
  · simpa using appendAll_sublist ⟨lc, dl, []⟩ l
  · exact appendAll_pairwise ⟨lc, dl, []⟩ l (by simp)

theorem append_dedup_invariant_witness :
    (I18nFiles.mk "fr" "en" [⟨"guide/intro.fr.md", "fr/guide/intro/index.html"⟩]).append
        ⟨"guide/intro.en.md", "fr/guide/intro/index.html"⟩
      = I18nFiles.mk "fr" "en" [⟨"guide/intro.fr.md", "fr/guide/intro/index.html"⟩]
    ∧ (appendAll ⟨"fr", "en", []⟩
        [⟨"a.md", "x.html"⟩, ⟨"b.md", "x.html"⟩]).files.Sublist
        [⟨"a.md", "x.html"⟩, ⟨"b.md", "x.html"⟩]
    ∧ (appendAll (⟨"fr", "en", []⟩ : I18nFiles)
        [⟨"a.md", "x.html"⟩, ⟨"b.md", "x.html"⟩]).files.Pairwise
        (fun a b => a.dest_path ≠ b.dest_path) :=
  append_dedup_invariant "fr" "en" [⟨"a.md", "x.html"⟩, ⟨"b.md", "x.html"⟩]
    (I18nFiles.mk "fr" "en" [⟨"guide/intro.fr.md", "fr/guide/intro/index.html"⟩])
    ⟨"guide/intro.en.md", "fr/guide/intro/index.html"⟩
    ⟨⟨"guide/intro.fr.md", "fr/guide/intro/index.html"⟩, by decide, rfl⟩

theorem mem_dictKeys (s : String) (l : List String) : s ∈ dictKeys l ↔ s ∈ l := by
  induction l with
  | nil => simp [dictKeys]
  | cons x xs ih =>
    simp only [dictKeys, List.mem_cons, List.mem_filter, ih]
    by_cases h : s = x <;> simp [h]

theorem dictKeys_eq_self (l : List String) (h : l.Nodup) : dictKeys l = l := by
  induction l with
  | nil => rfl
  | cons x xs ih =>
    obtain ⟨hx, hxs⟩ := List.nodup_cons.mp h
    rw [dictKeys, ih hxs]
    congr 1
    rw [List.filter_eq_self]
    intro a ha
    simp only [decide_eq_true_eq]
    intro heq
    exact hx (heq ▸ ha)

theorem srcPathsGet_nodup (files : List FileEntry) (m : FileEntry)
    (hm : m ∈ files) (hnd : (files.map (fun f => f.src_path)).Nodup) :
    srcPathsGet files m.src_path = some m := by
  induction files with
  | nil => cases hm
  | cons x xs ih =>
    rw [List.map_cons, List.nodup_cons] at hnd
    obtain ⟨hx, hxs⟩ := hnd
    rcases List.mem_cons.mp hm with rfl | hmem
    · have hnil : xs.filter (fun f => f.src_path == m.src_path) = [] := by
        rw [List.filter_eq_nil_iff]
        intro g hg
        simp only [beq_iff_eq]
        intro heq
        exact hx (heq ▸ List.mem_map_of_mem (fun f => f.src_path) hg)
      unfold srcPathsGet
      rw [List.filter_cons_of_pos (by simp), hnil]
      rfl
    · have hxm : ¬((fun f : FileEntry => f.src_path == m.src_path) x = true) := by
        simp only [beq_iff_eq]
        intro heq
        exact hx (heq ▸ List.mem_map_of_mem (fun f => f.src_path) hmem)
      have htail := ih hmem hxs
      unfold srcPathsGet at htail ⊢
      rw [List.filter_cons, if_neg hxm]
      exact htail

/-- C4 counterexample: two members share the logical stem; the
requested-locale form of the queried path equals the second member's source
path, yet the lookup returns the first-inserted bare member, because
`get_file_from_path` scans member keys in insertion order rather than the
three candidate forms in priority order. -/
theorem lookup_order_counterexample :
    (I18nFiles.mk "fr" "en"
        [⟨"guide/intro.md", "guide/intro/index.html"⟩,
         ⟨"guide/intro.fr.md", "fr/guide/intro/index.html"⟩]).get_file_from_path
        "guide/intro.md"
      = some ⟨"guide/intro.md", "guide/intro/index.html"⟩
    ∧ withSuffix "guide/intro.md" ("." ++ "fr" ++ pathSuffix "guide/intro.md")
      = "guide/intro.fr.md"
    ∧ (⟨"guide/intro.fr.md", "fr/guide/intro/index.html"⟩ : FileEntry)
      ∈ (I18nFiles.mk "fr" "en"
          [⟨"guide/intro.md", "guide/intro/index.html"⟩,
           ⟨"guide/intro.fr.md", "fr/guide/intro/index.html"⟩]).files
    ∧ some (⟨"guide/intro.md", "guide/intro/index.html"⟩ : FileEntry)
      ≠ some (⟨"guide/intro.fr.md", "fr/guide/intro/index.html"⟩ : FileEntry) := by
  refine ⟨by decide, by decide, by decide, by decide⟩

/-- C4 amended: containment holds exactly when some member's source path
equals one of the three candidate forms (requested-locale suffixed,
default-locale suffixed, bare), and the lookup returns the first member in
insertion order whose source path equals any of the three forms — not the
member matched by the first form in candidate order.  Hypotheses: member
source paths are nonempty, normalised, and pairwise distinct, as for real
walker-produced members. -/
theorem contains_and_lookup_resolution (fs : I18nFiles) (path : String)
    (hne : ∀ m ∈ fs.files, m.src_path ≠ "")
    (hnorm : ∀ m ∈ fs.files, osNormpath m.src_path = m.src_path)
    (hnd : (fs.files.map (fun f => f.src_path)).Nodup) :
    (fs.containsPath path = true ↔
      ∃ m ∈ fs.files,
        m.src_path ∈ expected_src_paths fs.locale fs.default_locale path)
    ∧ fs.get_file_from_path path =
        fs.files.find? (fun m =>
          (expected_src_paths fs.locale fs.default_locale path).contains
            m.src_path) := by
  constructor
  · unfold I18nFiles.containsPath srcPathKeys
    rw [List.any_eq_true]
    constructor
    · rintro ⟨s, hs, hsne⟩
      rw [List.mem_filter] at hs
      obtain ⟨hsk, hsexp⟩ := hs
      rw [mem_dictKeys] at hsk
      obtain ⟨m, hm, rfl⟩ := List.mem_map.mp hsk
      exact ⟨m, hm, by simpa [List.contains, List.elem_iff] using hsexp⟩
    · rintro ⟨m, hm, hexp⟩
      refine ⟨m.src_path, ?_, by simpa using hne m hm⟩
      rw [List.mem_filter]
      refine ⟨?_, by simpa [List.contains, List.elem_iff] using hexp⟩
      rw [mem_dictKeys]
      exact List.mem_map_of_mem (fun f => f.src_path) hm
  · unfold I18nFiles.get_file_from_path srcPathKeys
    rw [dictKeys_eq_self _ hnd, List.find?_map]
    rw [show (fun m : FileEntry =>
        (expected_src_paths fs.locale fs.default_locale path).contains m.src_path)
      = ((fun s => (expected_src_paths fs.locale fs.default_locale path).contains s)
        ∘ (fun f : FileEntry => f.src_path)) from rfl]
    cases hf : fs.files.find? ((fun s =>
        (expected_src_paths fs.locale fs.default_locale path).contains s)
        ∘ (fun f : FileEntry => f.src_path)) with
    | none => rfl
    | some m =>
      have hmem := List.mem_of_find?_eq_some hf
      show srcPathsGet fs.files (osNormpath m.src_path) = some m
      rw [hnorm m hmem]
      exact srcPathsGet_nodup fs.files m hmem hnd

theorem contains_and_lookup_resolution_witness :
    ((I18nFiles.mk "fr" "en"
        [⟨"guide/intro.md", "guide/intro/index.html"⟩,
         ⟨"guide/intro.fr.md", "fr/guide/intro/index.html"⟩]).containsPath
        "guide/intro.md" = true ↔
      ∃ m ∈ (I18nFiles.mk "fr" "en"
          [⟨"guide/intro.md", "guide/intro/index.html"⟩,
           ⟨"guide/intro.fr.md", "fr/guide/intro/index.html"⟩]).files,
        m.src_path ∈ expected_src_paths "fr" "en" "guide/intro.md")
    ∧ (I18nFiles.mk "fr" "en"
        [⟨"guide/intro.md", "guide/intro/index.html"⟩,
         ⟨"guide/intro.fr.md", "fr/guide/intro/index.html"⟩]).get_file_from_path
        "guide/intro.md"
      = (I18nFiles.mk "fr" "en"
          [⟨"guide/intro.md", "guide/intro/index.html"⟩,
           ⟨"guide/intro.fr.md", "fr/guide/intro/index.html"⟩]).files.find?
          (fun m => (expected_src_paths "fr" "en" "guide/intro.md").contains
            m.src_path) :=
  contains_and_lookup_resolution
    (I18nFiles.mk "fr" "en"
      [⟨"guide/intro.md", "guide/intro/index.html"⟩,
       ⟨"guide/intro.fr.md", "fr/guide/intro/index.html"⟩])
    "guide/intro.md" (by decide) (by decide) (by decide)

/-- Spec-side destination filename, as amended for C6: the stem name with
its final dot-suffix (if any) replaced — by the original extension when a
locale-suffixed candidate matched, by the entire suffix chain of the
initially-discovered path otherwise.  (The claim's unqualified "name plus
extension" fails when the name itself still carries a dot-suffix, because
`with_suffix` replaces rather than appends.) -/
def specDestName (nm originalExt suffixChain : String) (localeMatched : Bool) :
    String :=
  if localeMatched then withSuffix nm originalExt else withSuffix nm suffixChain

/-- Spec-side destination path rules of C6: pages use `parent/<name>.html`
when directory URLs are disabled or the name is `index`, else
`parent/<name>/index.html`; non-page assets use `parent/<dest filename>`. -/
def specDestPath (parent nm destFilename : String) (isPage useDirUrls : Bool) :
    String :=
  if isPage then
    if useDirUrls = false ∨ nm = "index" then osJoin parent (nm ++ ".html")
    else osJoin (osJoin parent nm) "index.html"
  else osJoin parent destFilename

/-- C6 counterexample: for `archive.v2.fr.png` (a stem that keeps a
dot-segment after locale stripping), the matched-locale destination
filename is `archive.png`, not the claimed name-plus-extension
`archive.v2.png`; and in the fallback case (last conjunct) no destination
filename is computed at all, against the claim's fallback clause. -/
theorem destination_rules_counterexample :
    (mkI18nFile ⟨"archive.v2.fr.png", "absS", "archive.v2.fr.png", "absD"⟩ "fr"
        ["fr", "en"] "en" "docs" "site" true
        (fun p => p == "docs/archive.v2.fr.png")).name = "archive.v2"
    ∧ (mkI18nFile ⟨"archive.v2.fr.png", "absS", "archive.v2.fr.png", "absD"⟩ "fr"
        ["fr", "en"] "en" "docs" "site" true
        (fun p => p == "docs/archive.v2.fr.png")).locale_suffix = some "fr"
    ∧ (mkI18nFile ⟨"archive.v2.fr.png", "absS", "archive.v2.fr.png", "absD"⟩ "fr"
        ["fr", "en"] "en" "docs" "site" true
        (fun p => p == "docs/archive.v2.fr.png")).dest_name = some "archive.png"
    ∧ (mkI18nFile ⟨"archive.v2.fr.png", "absS", "archive.v2.fr.png", "absD"⟩ "fr"
        ["fr", "en"] "en" "docs" "site" true
        (fun p => p == "docs/archive.v2.fr.png")).dest_path = "archive.png"
    ∧ ("archive.png" : String) ≠ "archive.v2" ++ ".png"
    ∧ (mkI18nFile ⟨"data.bin", "absS", "data.bin", "absD"⟩ "fr" ["fr", "en"] "en"
        "docs" "site" true (fun _ => false)).dest_name = none := by
  refine ⟨by decide, by decide, by decide, by decide, by decide, by decide⟩

/-- C6 amended: whenever one of the three candidates matched, the
destination filename is the name with its final dot-suffix (if any)
replaced by the original extension (locale-suffixed candidate) or by the
initial path's entire multi-part suffix chain (unsuffixed candidate), and
the destination path follows the page/asset rules of the claim; in the
fallback case no destination filename is assigned (see the frame theorem
for C10). -/
theorem destination_rules (file_from : SourceFile) (language : String)
    (all_languages : List String) (default_language docs_dir site_dir : String)
    (use_directory_urls : Bool) (fsExists : String → Bool)
    (ls : Option String) (cand : String)
    (hfind : (expectedPaths file_from language all_languages default_language
        docs_dir).find? (fun c => fsExists c.2) = some (ls, cand)) :
    (mkI18nFile file_from language all_languages default_language docs_dir
        site_dir use_directory_urls fsExists).dest_name
      = some (specDestName
          (mkI18nFile file_from language all_languages default_language docs_dir
            site_dir use_directory_urls fsExists).name
          (pathSuffix file_from.src_path)
          (String.join (pathSuffixes file_from.src_path)) (optStrTruthy ls))
    ∧ (mkI18nFile file_from language all_languages default_language docs_dir
        site_dir use_directory_urls fsExists).dest_path
      = specDestPath
          (osSplit (mkI18nFile file_from language all_languages default_language
            docs_dir site_dir use_directory_urls fsExists).src_path).1
          (mkI18nFile file_from language all_languages default_language docs_dir
            site_dir use_directory_urls fsExists).name
          (specDestName
            (mkI18nFile file_from language all_languages default_language docs_dir
              site_dir use_directory_urls fsExists).name
            (pathSuffix file_from.src_path)
            (String.join (pathSuffixes file_from.src_path)) (optStrTruthy ls))
          (is_markdown_file (mkI18nFile file_from language all_languages
            default_language docs_dir site_dir use_directory_urls fsExists).src_path)
          use_directory_urls := by
  unfold mkI18nFile
  rw [hfind]
  dsimp only
  constructor
  · unfold specDestName
    rfl
  · unfold get_dest_path specDestPath specDestName
    rfl

theorem destination_rules_witness :
    (mkI18nFile ⟨"guide/intro.md", "absS", "guide/intro/index.html", "absD"⟩ "fr"
        ["fr", "en"] "en" "docs" "site" true
        (fun p => p == "docs/guide/intro.fr.md")).dest_name
      = some (specDestName
          (mkI18nFile ⟨"guide/intro.md", "absS", "guide/intro/index.html", "absD"⟩
            "fr" ["fr", "en"] "en" "docs" "site" true
            (fun p => p == "docs/guide/intro.fr.md")).name
          (pathSuffix "guide/intro.md")
          (String.join (pathSuffixes "guide/intro.md")) (optStrTruthy (some "fr")))
    ∧ (mkI18nFile ⟨"guide/intro.md", "absS", "guide/intro/index.html", "absD"⟩ "fr"
        ["fr", "en"] "en" "docs" "site" true
        (fun p => p == "docs/guide/intro.fr.md")).dest_path
      = specDestPath
          (osSplit (mkI18nFile ⟨"guide/intro.md", "absS", "guide/intro/index.html",
            "absD"⟩ "fr" ["fr", "en"] "en" "docs" "site" true
            (fun p => p == "docs/guide/intro.fr.md")).src_path).1
          (mkI18nFile ⟨"guide/intro.md", "absS", "guide/intro/index.html", "absD"⟩
            "fr" ["fr", "en"] "en" "docs" "site" true
            (fun p => p == "docs/guide/intro.fr.md")).name
          (specDestName
            (mkI18nFile ⟨"guide/intro.md", "absS", "guide/intro/index.html", "absD"⟩
              "fr" ["fr", "en"] "en" "docs" "site" true
              (fun p => p == "docs/guide/intro.fr.md")).name
            (pathSuffix "guide/intro.md")
            (String.join (pathSuffixes "guide/intro.md")) (optStrTruthy (some "fr")))
          (is_markdown_file (mkI18nFile ⟨"guide/intro.md", "absS",
            "guide/intro/index.html", "absD"⟩ "fr" ["fr", "en"] "en" "docs" "site"
            true (fun p => p == "docs/guide/intro.fr.md")).src_path) true :=
  destination_rules ⟨"guide/intro.md", "absS", "guide/intro/index.html", "absD"⟩
    "fr" ["fr", "en"] "en" "docs" "site" true
    (fun p => p == "docs/guide/intro.fr.md") (some "fr") "docs/guide/intro.fr.md"
    (by decide)

/-- Spec-side URL synthesis (C7): separators are already `/`; collapse an
`index.html` destination to its parent with a trailing slash (`.` at the
root) under directory URLs; prefix the requested locale, the bare root `.`
becoming exactly `<locale>/`; percent-encode the result. -/
def specUrl (dest_path dest_language : String) (useDirUrls : Bool) : String :=
  let parts := osSplit dest_path
  let u :=
    if useDirUrls ∧ parts.2 = "index.html" then
      if parts.1 = "" then "." else parts.1 ++ "/"
    else dest_path
  urlquote (if u = "." then dest_language ++ "/" else dest_language ++ "/" ++ u)

/-- C7: for every resolved file (with a nonempty requested locale, as
validation guarantees), the URL equals the claim's synthesis applied to the
file's own destination path: collapse under directory URLs, locale prefix
with the root `.` giving exactly `<locale>/`, then percent-encoding. -/
theorem url_synthesis (file_from : SourceFile) (language : String)
    (all_languages : List String) (default_language docs_dir site_dir : String)
    (use_directory_urls : Bool) (fsExists : String → Bool)
    (hlang : language ≠ "") :
    (mkI18nFile file_from language all_languages default_language docs_dir
        site_dir use_directory_urls fsExists).url
      = specUrl (mkI18nFile file_from language all_languages default_language
          docs_dir site_dir use_directory_urls fsExists).dest_path
          language use_directory_urls := by
  have key : ∀ d : String, get_url d language use_directory_urls
      = specUrl d language use_directory_urls := by
    intro d
    unfold get_url specUrl
    dsimp only
    rw [if_neg hlang]
  unfold mkI18nFile
  split
  · dsimp only
    exact key _
  · dsimp only
    exact key _

theorem url_synthesis_witness :
    (mkI18nFile ⟨"index.md", "absS", "index.html", "absD"⟩ "fr" ["fr", "en"] "en"
        "docs" "site" true (fun p => p == "docs/index.md")).url
      = specUrl (mkI18nFile ⟨"index.md", "absS", "index.html", "absD"⟩ "fr"
          ["fr", "en"] "en" "docs" "site" true
          (fun p => p == "docs/index.md")).dest_path "fr" true :=
  url_synthesis ⟨"index.md", "absS", "index.html", "absD"⟩ "fr" ["fr", "en"] "en"
    "docs" "site" true (fun p => p == "docs/index.md") (by decide)
